import Mathlib

/-!
Shallow embedding of the NUST_rumours trust/consensus engine.

The numeric values (`truthScore`, credibility weights, vote sums) are
modelled over `ℚ`; database tables are modelled as association lists.
Definitions follow the TypeScript source in `src/lib/engine/truthScore.ts`,
`src/lib/engine/credibility.ts`, `src/lib/engine/rumorDAG.ts`,
`src/lib/engine/rumorLifecycle.ts` and `src/lib/auth/anonymousIdentity.ts`.
-/

namespace NustRumours

/-- Claim lifecycle status, from `rumorLifecycle.ts` (`RumorStatus`). -/
inductive RumorStatus
  | «open»
  | verified
  | disputed
  | deleted
deriving DecidableEq, Repr

/-- The mutable per-claim state kept in the `rumors` table. -/
structure Rumor where
  truthScore : ℚ
  status : RumorStatus
  voteCount : ℕ
  totalCredibilityWeight : ℚ
  weightedVoteSum : ℚ
  locked : Bool
deriving DecidableEq, Repr

/-- Result record returned by `addVoteAndRecalculate` (`TruthScoreResult`). -/
structure TruthScoreResult where
  truthScore : ℚ
  voteCount : ℕ
  totalCredibilityWeight : ℚ
  shouldLock : Bool
  newStatus : RumorStatus
deriving DecidableEq, Repr

/-- `MIN_VOTES_FOR_LOCK` in `truthScore.ts`. -/
def MIN_VOTES_FOR_LOCK : ℕ := 5

/-- `VERIFIED_THRESHOLD` in `truthScore.ts`. -/
def VERIFIED_THRESHOLD : ℚ := 3 / 4

/-- `DISPUTED_THRESHOLD` in `truthScore.ts`. -/
def DISPUTED_THRESHOLD : ℚ := 1 / 4

/-- `MIN_CREDIBILITY_WEIGHT` in `truthScore.ts`. -/
def MIN_CREDIBILITY_WEIGHT : ℚ := 2

/-- `calculateTruthScore` in `truthScore.ts`. -/
def calculateTruthScore (weightedVoteSum totalCredibilityWeight : ℚ) : ℚ :=
  if totalCredibilityWeight ≤ 0 then 1 / 2
  else (weightedVoteSum / totalCredibilityWeight + 1) / 2

/-- The error message thrown by `addVoteAndRecalculate` on a locked rumor
(the `ClaimLocked` conflict of the spec). -/
def ClaimLockedMsg : String := "Rumor is locked and no longer accepting votes"

/-- The `shouldLock` condition computed in `addVoteAndRecalculate`
(`truthScore.ts` lines 88-91): enough votes, enough credibility weight,
and a truth score at or past one of the two thresholds. -/
def lockCondition (newVoteCount : ℕ) (newTotalWeight newTruthScore : ℚ) : Prop :=
  MIN_VOTES_FOR_LOCK ≤ newVoteCount ∧
  MIN_CREDIBILITY_WEIGHT ≤ newTotalWeight ∧
  (VERIFIED_THRESHOLD ≤ newTruthScore ∨ newTruthScore ≤ DISPUTED_THRESHOLD)

instance (n : ℕ) (w s : ℚ) : Decidable (lockCondition n w s) := by
  unfold lockCondition
  infer_instance

/-- `addVoteAndRecalculate` in `truthScore.ts`, acting on the in-memory
rumor record instead of the database row.  Returns the updated rumor and
the `TruthScoreResult`; a non-`open` rumor yields the `ClaimLocked` error. -/
def addVoteAndRecalculate (rumor : Rumor) (voteValue : ℤ) (voterCredibility : ℚ) :
    Except String (Rumor × TruthScoreResult) :=
  if rumor.status ≠ RumorStatus.«open» then
    Except.error ClaimLockedMsg
  else
    let newWeightedSum := rumor.weightedVoteSum + (voteValue : ℚ) * voterCredibility
    let newTotalWeight := rumor.totalCredibilityWeight + voterCredibility
    let newVoteCount := rumor.voteCount + 1
    let newTruthScore := calculateTruthScore newWeightedSum newTotalWeight
    let shouldLock : Bool :=
      if lockCondition newVoteCount newTotalWeight newTruthScore then true else false
    let newStatus :=
      if shouldLock then
        if VERIFIED_THRESHOLD ≤ newTruthScore then RumorStatus.verified
        else RumorStatus.disputed
      else RumorStatus.«open»
    Except.ok
      ({ truthScore := newTruthScore
         status := newStatus
         voteCount := newVoteCount
         totalCredibilityWeight := newTotalWeight
         weightedVoteSum := newWeightedSum
         locked := shouldLock },
       { truthScore := newTruthScore
         voteCount := newVoteCount
         totalCredibilityWeight := newTotalWeight
         shouldLock := shouldLock
         newStatus := newStatus })

/-- One `castVote` step at the state level: a rejected vote (locked rumor)
leaves the stored rumor unchanged, an accepted one stores the update. -/
def castVoteState (rumor : Rumor) (voteValue : ℤ) (voterCredibility : ℚ) : Rumor :=
  match addVoteAndRecalculate rumor voteValue voterCredibility with
  | Except.ok r => r.1
  | Except.error _ => rumor

/-- The freshly created claim state written by `createRumor` in
`rumorLifecycle.ts`: neutral score, `open`, no votes, zero weights. -/
def freshRumor : Rumor :=
  { truthScore := 1 / 2
    status := RumorStatus.«open»
    voteCount := 0
    totalCredibilityWeight := 0
    weightedVoteSum := 0
    locked := false }

/-- Fold a list of votes (value, effective credibility) over a rumor. -/
def castVotes (rumor : Rumor) (vs : List (ℤ × ℚ)) : Rumor :=
  vs.foldl (fun r vc => castVoteState r vc.1 vc.2) rumor

/-- All intermediate states reached while casting a list of votes,
including the start state. -/
def voteTrace (rumor : Rumor) (vs : List (ℤ × ℚ)) : List Rumor :=
  vs.scanl (fun r vc => castVoteState r vc.1 vc.2) rumor

/-- Per-identity record of the `anonymous_users` table (`credibility.ts`). -/
structure AnonymousUser where
  credibility : ℚ
  totalVotes : ℕ
  correctVotes : ℕ
deriving DecidableEq, Repr

/-- Row of the `pending_credibility_updates` table (`credibility.ts`). -/
structure PendingUpdate where
  id : ℕ
  userToken : String
  rumorId : String
  voteValue : ℤ
  processed : Bool
deriving DecidableEq, Repr

/-- The state touched by the credibility ledger: the identity table and the
pending-update queue. -/
structure CredState where
  users : List (String × AnonymousUser)
  pending : List PendingUpdate
deriving DecidableEq, Repr

/-- `ALPHA` in `credibility.ts` (adjustment step size `0.05`). -/
def ALPHA : ℚ := 1 / 20

/-- `MIN_CREDIBILITY` in `credibility.ts`. -/
def MIN_CREDIBILITY : ℚ := 0

/-- `MAX_CREDIBILITY` in `credibility.ts`. -/
def MAX_CREDIBILITY : ℚ := 1

/-- `clip` in `credibility.ts`: `Math.max(min, Math.min(max, value))`. -/
def clip (value min max : ℚ) : ℚ :=
  Max.max min (Min.min max value)

/-- The terminal outcome passed to `processCredibilityUpdates`
(`'verified' | 'disputed'`). -/
inductive Outcome
  | verified
  | disputed
deriving DecidableEq, Repr

/-- Database select of the first `anonymous_users` row with this token. -/
def findUser (users : List (String × AnonymousUser)) (token : String) :
    Option AnonymousUser :=
  (users.find? (fun p => p.1 == token)).map Prod.snd

/-- Database update of every `anonymous_users` row with this token. -/
def updateUser (users : List (String × AnonymousUser)) (token : String)
    (f : AnonymousUser → AnonymousUser) : List (String × AnonymousUser) :=
  users.map (fun p => if p.1 == token then (p.1, f p.2) else p)

/-- Database update setting `processed = 1` on every pending-update row
with the given `id`. -/
def markProcessed (pending : List PendingUpdate) (i : ℕ) : List PendingUpdate :=
  pending.map (fun u => if u.id = i then { u with processed := true } else u)

/-- The body of the `for` loop in `processCredibilityUpdates`
(`credibility.ts` lines 708-747): computes the alignment of one pending
update against the final outcome, adjusts the voter credibility and
accuracy counters when the identity row exists, counts it, and marks the
update processed; a missing identity row only marks the update. -/
def applyCredibilityUpdate (finalOutcome : Outcome) (acc : CredState × ℕ)
    (update : PendingUpdate) : CredState × ℕ :=
  let s := acc.1
  let expectedVote : ℤ := if finalOutcome = Outcome.verified then 1 else -1
  let alignment : ℤ := if update.voteValue = expectedVote then 1 else -1
  match findUser s.users update.userToken with
  | some user =>
      let newCredibility :=
        clip (user.credibility + ALPHA * (alignment : ℚ)) MIN_CREDIBILITY MAX_CREDIBILITY
      ({ users := updateUser s.users update.userToken (fun u =>
           { credibility := newCredibility
             totalVotes := u.totalVotes + 1
             correctVotes := if alignment = 1 then u.correctVotes + 1 else u.correctVotes })
         pending := markProcessed s.pending update.id },
       acc.2 + 1)
  | none =>
      ({ users := s.users, pending := markProcessed s.pending update.id }, acc.2)

/-- `processCredibilityUpdates` in `credibility.ts`: fetch the unprocessed
pending updates of the rumor, then run the update loop; returns the new
state and the `updated` count. -/
def processCredibilityUpdates (rumorId : String) (finalOutcome : Outcome)
    (s : CredState) : CredState × ℕ :=
  let pendingUpdates := s.pending.filter (fun u => u.rumorId == rumorId && !u.processed)
  pendingUpdates.foldl (applyCredibilityUpdate finalOutcome) (s, 0)

/-- Outgoing reference targets of a node, from the `rumor_references`
edge list (used by the cycle check in `rumorDAG.ts`). -/
def successorsOf (edges : List (String × String)) (n : String) : List String :=
  (edges.filter (fun e => e.1 == n)).map (fun e => e.2)

/-- Termination measure for the DFS of `checkForCycle`: unvisited
candidate nodes weighted above the bounded stack growth. -/
def dfsMeasure (edges : List (String × String)) (visited stack : List String) : ℕ :=
  (((edges.map Prod.snd) ++ stack).toFinset \ visited.toFinset).card * (edges.length + 2)
    + stack.length

/-- The DFS loop of `checkForCycle` in `rumorDAG.ts`: pop a node, succeed
when it is the source, skip it when visited, otherwise visit it and push
its not-yet-visited successors. -/
def dfs (edges : List (String × String)) (sourceId : String) :
    List String → List String → Bool
  | _, [] => false
  | visited, current :: stack =>
      if current = sourceId then true
      else if current ∈ visited then dfs edges sourceId visited stack
      else
        dfs edges sourceId (current :: visited)
          (((successorsOf edges current).filter (fun t => t ∉ current :: visited)) ++ stack)
termination_by visited stack => dfsMeasure edges visited stack
decreasing_by
  · simp only [dfsMeasure]
    have hsub : ((edges.map Prod.snd ++ stack).toFinset \ visited.toFinset)
        ⊆ ((edges.map Prod.snd ++ current :: stack).toFinset \ visited.toFinset) := by
      apply Finset.sdiff_subset_sdiff _ (le_refl _)
      simp only [List.toFinset_append, List.toFinset_cons]
      exact Finset.union_subset_union (le_refl _) (Finset.subset_insert _ _)
    have hcard := Finset.card_le_card hsub
    calc ((edges.map Prod.snd ++ stack).toFinset \ visited.toFinset).card * (edges.length + 2)
          + stack.length
        ≤ ((edges.map Prod.snd ++ current :: stack).toFinset \ visited.toFinset).card
            * (edges.length + 2) + stack.length :=
          Nat.add_le_add_right (Nat.mul_le_mul_right _ hcard) _
      _ < ((edges.map Prod.snd ++ current :: stack).toFinset \ visited.toFinset).card
            * (edges.length + 2) + (current :: stack).length := by
          simp [List.length_cons]
  · rename_i hneq hv
    clear hneq
    simp only [dfsMeasure]
    set T := edges.map Prod.snd
    set pushed := (successorsOf edges current).filter (fun t => t ∉ current :: visited)
    have hcur : current ∈ (T ++ current :: stack).toFinset \ visited.toFinset := by
      simp [hv]
    have hsub : ((T ++ (pushed ++ stack)).toFinset \ (current :: visited).toFinset)
        ⊆ (((T ++ current :: stack).toFinset \ visited.toFinset).erase current) := by
      intro x hx
      simp only [Finset.mem_sdiff, List.toFinset_append, Finset.mem_union,
        List.toFinset_cons, Finset.mem_insert, List.mem_toFinset] at hx
      obtain ⟨hmem, hnv⟩ := hx
      push_neg at hnv
      rw [Finset.mem_erase]
      refine ⟨hnv.1, ?_⟩
      simp only [Finset.mem_sdiff, List.toFinset_append, Finset.mem_union,
        List.toFinset_cons, Finset.mem_insert, List.mem_toFinset]
      refine ⟨?_, hnv.2⟩
      rcases hmem with h | h | h
      · exact Or.inl h
      · left
        have hx1 : x ∈ successorsOf edges current := List.mem_of_mem_filter h
        rcases List.mem_map.1 hx1 with ⟨e, he, hex⟩
        exact hex ▸ List.mem_map_of_mem Prod.snd (List.mem_of_mem_filter he)
      · exact Or.inr (Or.inr h)
    have hcard : ((T ++ (pushed ++ stack)).toFinset \ (current :: visited).toFinset).card
        ≤ ((T ++ current :: stack).toFinset \ visited.toFinset).card - 1 := by
      calc ((T ++ (pushed ++ stack)).toFinset \ (current :: visited).toFinset).card
          ≤ (((T ++ current :: stack).toFinset \ visited.toFinset).erase current).card :=
            Finset.card_le_card hsub
        _ = ((T ++ current :: stack).toFinset \ visited.toFinset).card - 1 :=
            Finset.card_erase_of_mem hcur
    have hpos : 1 ≤ ((T ++ current :: stack).toFinset \ visited.toFinset).card :=
      Finset.card_pos.2 ⟨current, hcur⟩
    have hplen : pushed.length ≤ edges.length := by
      calc pushed.length ≤ (successorsOf edges current).length :=
            List.length_filter_le _ _
        _ = (edges.filter (fun e => e.1 == current)).length := by
            simp [successorsOf]
        _ ≤ edges.length := List.length_filter_le _ _
    set D := ((T ++ current :: stack).toFinset \ visited.toFinset).card
    set C := ((T ++ (pushed ++ stack)).toFinset \ (current :: visited).toFinset).card
    have hDeq : D * (edges.length + 2) = (D - 1) * (edges.length + 2) + (edges.length + 2) := by
      have h1 : D = (D - 1) + 1 := (Nat.succ_pred_eq_of_pos hpos).symm
      calc D * (edges.length + 2) = ((D - 1) + 1) * (edges.length + 2) := by rw [← h1]
        _ = (D - 1) * (edges.length + 2) + (edges.length + 2) := by ring
    have hCle : C * (edges.length + 2) ≤ (D - 1) * (edges.length + 2) :=
      Nat.mul_le_mul_right _ hcard
    rw [List.length_append, List.length_cons]
    linarith

/-- `checkForCycle` in `rumorDAG.ts`: DFS from the target looking for the
source; `true` means inserting `source → target` would close a cycle. -/
def checkForCycle (edges : List (String × String)) (sourceId targetId : String) : Bool :=
  dfs edges sourceId [] [targetId]

/-- One iteration of the insertion loop of `createReferences`
(`rumorDAG.ts` lines 242-254): skip the edge when it would create a cycle,
otherwise insert it (the `onDuplicateKeyUpdate` no-op leaves an existing
edge in place). -/
def addReferenceEdge (edges : List (String × String))
    (sourceRumorId targetRumorId : String) : List (String × String) :=
  if checkForCycle edges sourceRumorId targetRumorId then edges
  else if (sourceRumorId, targetRumorId) ∈ edges then edges
  else edges ++ [(sourceRumorId, targetRumorId)]

/-- `createReferences` in `rumorDAG.ts`: keep only targets that exist with
a non-deleted status, then run the cycle-checked insertion loop. -/
def createReferences (rumors : List (String × Rumor)) (edges : List (String × String))
    (sourceRumorId : String) (targetIds : List String) : List (String × String) :=
  let validTargetIds := targetIds.filter (fun t =>
    match rumors.find? (fun p => p.1 == t) with
    | some p => p.2.status = RumorStatus.«open» ∨ p.2.status = RumorStatus.verified ∨
        p.2.status = RumorStatus.disputed
    | none => false)
  validTargetIds.foldl (fun es t => addReferenceEdge es sourceRumorId t) edges

/-- `removeRumorFromDAG` in `rumorDAG.ts`: count the incoming and outgoing
edges of the rumor, then delete every edge whose target is the rumor and
every edge whose source is the rumor.  Returns the remaining edges and the
`(removedIncoming, removedOutgoing)` counts. -/
def removeRumorFromDAG (edges : List (String × String)) (rumorId : String) :
    List (String × String) × ℕ × ℕ :=
  let incoming := edges.filter (fun e => e.2 == rumorId)
  let outgoing := edges.filter (fun e => e.1 == rumorId)
  let afterIncoming := edges.filter (fun e => !(e.2 == rumorId))
  let afterBoth := afterIncoming.filter (fun e => !(e.1 == rumorId))
  (afterBoth, incoming.length, outgoing.length)

/-- Combined store state used by the rumor deletion route: the `rumors`
table and the `rumor_references` edge table. -/
structure AppState where
  rumors : List (String × Rumor)
  edges : List (String × String)
deriving DecidableEq, Repr

/-- `deleteRumor` in `rumorLifecycle.ts`: mark the rumor row deleted. -/
def deleteRumor (rumors : List (String × Rumor)) (rumorId : String) :
    List (String × Rumor) :=
  rumors.map (fun p =>
    if p.1 == rumorId then (p.1, { p.2 with status := RumorStatus.deleted }) else p)

/-- The `DELETE` handler of `/api/rumors/[id]`: `Rumor not found` when the
id is unknown, otherwise prune the DAG edges and mark the rumor deleted,
reporting the DAG cleanup counts. -/
def deleteRumorRoute (s : AppState) (rumorId : String) :
    Except String (AppState × ℕ × ℕ) :=
  match s.rumors.find? (fun p => p.1 == rumorId) with
  | none => Except.error "Rumor not found"
  | some _ =>
      let dagResult := removeRumorFromDAG s.edges rumorId
      Except.ok ({ rumors := deleteRumor s.rumors rumorId, edges := dagResult.1 },
        dagResult.2)

/-- Graph reachability along directed reference edges. -/
inductive Reachable (edges : List (String × String)) : String → String → Prop
  | refl (a : String) : Reachable edges a a
  | step {a b c : String} : (a, b) ∈ edges → Reachable edges b c → Reachable edges a c

/-- The edge set contains no (directed) cycle. -/
def Acyclic (edges : List (String × String)) : Prop :=
  ∀ a b : String, (a, b) ∈ edges → ¬ Reachable edges b a

/-- Verification invariant for a rumor state: the weighted vote sum is
bounded by the total credibility weight and the truth score is in `[0,1]`. -/
def GoodRumor (r : Rumor) : Prop :=
  |r.weightedVoteSum| ≤ r.totalCredibilityWeight ∧
  0 ≤ r.truthScore ∧ r.truthScore ≤ 1

/-- `LOW_CREDIBILITY_THRESHOLD` in `anonymousIdentity.ts`. -/
def LOW_CREDIBILITY_THRESHOLD : ℚ := 1 / 5

/-- `getEffectiveVoteWeight` in `anonymousIdentity.ts`: quadratic dampening
below the low-credibility threshold, identity above it. -/
def getEffectiveVoteWeight (credibility : ℚ) : ℚ :=
  if credibility < LOW_CREDIBILITY_THRESHOLD then
    (credibility / LOW_CREDIBILITY_THRESHOLD) ^ 2 * LOW_CREDIBILITY_THRESHOLD
  else credibility

end NustRumours

namespace NustRumours

/-- A `castVote` on a non-open rumor leaves the state unchanged. -/
lemma castVoteState_not_open (r : Rumor) (v : ℤ) (c : ℚ)
    (h : r.status ≠ RumorStatus.«open») : castVoteState r v c = r := by
  rw [castVoteState, addVoteAndRecalculate, if_pos h]

/-- Explicit form of the state update performed by a vote on an open rumor. -/
lemma castVoteState_open (r : Rumor) (v : ℤ) (c : ℚ)
    (h : r.status = RumorStatus.«open») :
    castVoteState r v c =
      { truthScore := calculateTruthScore (r.weightedVoteSum + (v : ℚ) * c)
          (r.totalCredibilityWeight + c)
        status :=
          if lockCondition (r.voteCount + 1) (r.totalCredibilityWeight + c)
              (calculateTruthScore (r.weightedVoteSum + (v : ℚ) * c)
                (r.totalCredibilityWeight + c)) then
            if VERIFIED_THRESHOLD ≤ calculateTruthScore (r.weightedVoteSum + (v : ℚ) * c)
                (r.totalCredibilityWeight + c) then
              RumorStatus.verified
            else RumorStatus.disputed
          else RumorStatus.«open»
        voteCount := r.voteCount + 1
        totalCredibilityWeight := r.totalCredibilityWeight + c
        weightedVoteSum := r.weightedVoteSum + (v : ℚ) * c
        locked :=
          if lockCondition (r.voteCount + 1) (r.totalCredibilityWeight + c)
              (calculateTruthScore (r.weightedVoteSum + (v : ℚ) * c)
                (r.totalCredibilityWeight + c))
          then true else false } := by
  have hne : ¬ r.status ≠ RumorStatus.«open» := fun hc => hc h
  simp only [castVoteState, addVoteAndRecalculate, if_neg hne]
  by_cases hP : lockCondition (r.voteCount + 1) (r.totalCredibilityWeight + c)
      (calculateTruthScore (r.weightedVoteSum + (v : ℚ) * c) (r.totalCredibilityWeight + c))
  · simp [hP]
  · simp [hP]

/-- `calculateTruthScore` stays in `[0,1]` when the weighted sum is bounded
by the total weight. -/
lemma calculateTruthScore_mem_unit (s w : ℚ) (h : |s| ≤ w) :
    0 ≤ calculateTruthScore s w ∧ calculateTruthScore s w ≤ 1 := by
  rw [calculateTruthScore]
  split_ifs with hw
  · norm_num
  · have hw' : 0 < w := lt_of_not_le hw
    obtain ⟨hl, hr⟩ := abs_le.1 h
    have h1 : s / w ≤ 1 := (div_le_one hw').2 hr
    have h2 : -1 ≤ s / w := by
      rw [le_div_iff₀ hw']
      linarith
    constructor <;> linarith

/-- A vote with value `±1` and credibility in `[0,1]` preserves the
`GoodRumor` invariant. -/
lemma goodRumor_castVoteState (r : Rumor) (v : ℤ) (c : ℚ)
    (hv : v = 1 ∨ v = -1) (hc0 : 0 ≤ c) (hg : GoodRumor r) :
    GoodRumor (castVoteState r v c) := by
  by_cases hst : r.status = RumorStatus.«open»
  · rw [castVoteState_open r v c hst]
    have hvc : |(v : ℚ) * c| = c := by
      rcases hv with h | h <;>
        simp [h, abs_of_nonneg, hc0, abs_of_nonneg hc0]
    have hsum : |r.weightedVoteSum + (v : ℚ) * c| ≤ r.totalCredibilityWeight + c := by
      calc |r.weightedVoteSum + (v : ℚ) * c|
          ≤ |r.weightedVoteSum| + |(v : ℚ) * c| := abs_add _ _
        _ = |r.weightedVoteSum| + c := by rw [hvc]
        _ ≤ r.totalCredibilityWeight + c := by
            have := hg.1
            linarith
    exact ⟨hsum, calculateTruthScore_mem_unit _ _ hsum⟩
  · rw [castVoteState_not_open r v c hst]
    exact hg

/-- Every state along a vote trace from a `GoodRumor` state is `GoodRumor`. -/
lemma goodRumor_voteTrace (vs : List (ℤ × ℚ)) :
    ∀ r : Rumor, GoodRumor r →
      (∀ vc ∈ vs, (vc.1 = 1 ∨ vc.1 = -1) ∧ 0 ≤ vc.2 ∧ vc.2 ≤ 1) →
      ∀ s ∈ voteTrace r vs, GoodRumor s := by
  induction vs with
  | nil =>
      intro r hg _ s hs
      simp only [voteTrace, List.scanl, List.mem_singleton] at hs
      exact hs ▸ hg
  | cons vc vs ih =>
      intro r hg hvs s hs
      simp only [voteTrace, List.scanl, List.mem_cons] at hs
      rcases hs with h | h
      · exact h ▸ hg
      · have hvc := hvs vc (List.mem_cons_self vc vs)
        have hg' : GoodRumor (castVoteState r vc.1 vc.2) :=
          goodRumor_castVoteState r vc.1 vc.2 hvc.1 hvc.2.1 hg
        exact ih (castVoteState r vc.1 vc.2) hg'
          (fun x hx => hvs x (List.mem_cons_of_mem vc hx)) s h

/-- Both branches of the update loop body mark the update processed. -/
lemma applyCredibilityUpdate_pending (o : Outcome) (acc : CredState × ℕ)
    (u : PendingUpdate) :
    ((applyCredibilityUpdate o acc u).1).pending = markProcessed acc.1.pending u.id := by
  rcases h : findUser acc.1.users u.userToken with _ | user <;>
    simp [applyCredibilityUpdate, h]

/-- Looking up a token after updating that token applies the update to the
found record. -/
lemma findUser_updateUser (users : List (String × AnonymousUser)) (token : String)
    (f : AnonymousUser → AnonymousUser) :
    findUser (updateUser users token f) token = (findUser users token).map f := by
  induction users with
  | nil => rfl
  | cons p rest ih =>
      by_cases hp : p.1 == token
      · simp [findUser, updateUser, List.find?, hp] at ih ⊢
      · simp only [findUser, updateUser, List.map_cons, if_neg hp] at ih ⊢
        rw [List.find?]
        rw [List.find?]
        simp only [hp]
        exact ih

/-- After folding the update loop over a worklist covering every unprocessed
pending row of the rumor, every pending row of the rumor is processed. -/
lemma fold_marks_all (rid : String) (o : Outcome) :
    ∀ (todo : List PendingUpdate) (acc : CredState × ℕ),
      (∀ v ∈ acc.1.pending, v.rumorId = rid →
        v.processed = true ∨ ∃ u ∈ todo, u.id = v.id) →
      ∀ v ∈ ((todo.foldl (applyCredibilityUpdate o) acc).1).pending,
        v.rumorId = rid → v.processed = true := by
  intro todo
  induction todo with
  | nil =>
      intro acc hP v hv hrid
      rcases hP v hv hrid with h | ⟨u, hu, _⟩
      · exact h
      · cases hu
  | cons u rest ih =>
      intro acc hP
      rw [List.foldl_cons]
      apply ih
      intro v hv hrid
      rw [applyCredibilityUpdate_pending] at hv
      rcases List.mem_map.1 hv with ⟨w, hw, hwv⟩
      by_cases hid : w.id = u.id
      · left
        rw [← hwv]
        simp [hid]
      · have hvw : v = w := by rw [← hwv]; simp [hid]
        subst hvw
        rcases hP v hw hrid with h | ⟨u', hu', hid'⟩
        · exact Or.inl h
        · rcases List.mem_cons.1 hu' with h' | h'
          · exact absurd (h' ▸ hid') (fun he => hid he.symm)
          · exact Or.inr ⟨u', h', hid'⟩

/-- After `processCredibilityUpdates`, no pending row of the rumor is left
unprocessed. -/
lemma processCredibilityUpdates_marks_all (rid : String) (o : Outcome) (s : CredState) :
    ∀ v ∈ ((processCredibilityUpdates rid o s).1).pending,
      v.rumorId = rid → v.processed = true := by
  intro v hv hrid
  refine fold_marks_all rid o _ (s, 0) ?_ v hv hrid
  intro w hw hwrid
  by_cases hp : w.processed = true
  · exact Or.inl hp
  · refine Or.inr ⟨w, ?_, rfl⟩
    rw [List.mem_filter]
    refine ⟨hw, ?_⟩
    simp [hwrid, hp]

/-- Re-running `processCredibilityUpdates` on its own output fetches an
empty worklist, so it changes nothing and reports zero updates. -/
lemma processCredibilityUpdates_idem (rid : String) (o : Outcome) (s : CredState) :
    processCredibilityUpdates rid o ((processCredibilityUpdates rid o s).1) =
      ((processCredibilityUpdates rid o s).1, 0) := by
  have hfil : ((processCredibilityUpdates rid o s).1).pending.filter
      (fun u => u.rumorId == rid && !u.processed) = [] := by
    rw [List.filter_eq_nil_iff]
    intro v hv
    by_cases hrid : v.rumorId = rid
    · have := processCredibilityUpdates_marks_all rid o s v hv hrid
      simp [this]
    · simp [hrid]
  rw [processCredibilityUpdates, hfil]
  rfl

/-- Claim C1: for every claim state, the computed truth score equals
`(weightedVoteSum/totalCredibilityWeight + 1)/2` whenever the total
credibility weight is positive, and `0.5` whenever it is `≤ 0`; moreover
every rumor state produced by a successful vote satisfies this invariant. -/
theorem C1_truthScore_formula :
    (∀ w t : ℚ, 0 < t → calculateTruthScore w t = (w / t + 1) / 2) ∧
    (∀ w t : ℚ, t ≤ 0 → calculateTruthScore w t = 1 / 2) ∧
    (∀ (r : Rumor) (v : ℤ) (c : ℚ) (r' : Rumor) (res : TruthScoreResult),
      addVoteAndRecalculate r v c = Except.ok (r', res) →
      r'.truthScore = calculateTruthScore r'.weightedVoteSum r'.totalCredibilityWeight) := by
  refine ⟨?_, ?_, ?_⟩
  · intro w t ht
    simp [calculateTruthScore, not_le.2 ht]
  · intro w t ht
    simp [calculateTruthScore, ht]
  · intro r v c r' res h
    unfold addVoteAndRecalculate at h
    by_cases hs : r.status = RumorStatus.«open»
    · simp only [hs] at h
      simp only [ne_eq, not_true_eq_false, if_false] at h
      cases h
      rfl
    · simp [hs] at h

/-- Witness for C1 at concrete inputs. -/
theorem C1_truthScore_formula_witness :
    calculateTruthScore 1 2 = 3 / 4 ∧ calculateTruthScore 7 0 = 1 / 2 := by
  constructor
  · have h := C1_truthScore_formula.1 1 2 (by norm_num)
    rw [h]; norm_num
  · exact C1_truthScore_formula.2.1 7 0 (by norm_num)

/-- Claim C7: `getEffectiveVoteWeight` is the identity at or above the `0.2`
threshold, the quadratic dampening `(c/0.2)^2 * 0.2` below it, and on `[0,1]`
it is monotone non-decreasing and bounded by the raw credibility. -/
theorem C7_effectiveWeight :
    (∀ c : ℚ, 0 ≤ c → c ≤ 1 →
      (LOW_CREDIBILITY_THRESHOLD ≤ c → getEffectiveVoteWeight c = c) ∧
      (c < LOW_CREDIBILITY_THRESHOLD →
        getEffectiveVoteWeight c =
          (c / LOW_CREDIBILITY_THRESHOLD) ^ 2 * LOW_CREDIBILITY_THRESHOLD) ∧
      getEffectiveVoteWeight c ≤ c) ∧
    (∀ c₁ c₂ : ℚ, 0 ≤ c₁ → c₂ ≤ 1 → c₁ ≤ c₂ →
      getEffectiveVoteWeight c₁ ≤ getEffectiveVoteWeight c₂) := by
  have hq : ∀ c : ℚ,
      (c / LOW_CREDIBILITY_THRESHOLD) ^ 2 * LOW_CREDIBILITY_THRESHOLD = 5 * (c * c) := by
    intro c
    rw [LOW_CREDIBILITY_THRESHOLD]
    ring
  constructor
  · intro c hc0 _
    refine ⟨?_, ?_, ?_⟩
    · intro h
      rw [getEffectiveVoteWeight, if_neg (not_lt.2 h)]
    · intro h
      rw [getEffectiveVoteWeight, if_pos h]
    · rw [getEffectiveVoteWeight]
      split_ifs with h
      · rw [hq]
        rw [LOW_CREDIBILITY_THRESHOLD] at h
        nlinarith [mul_nonneg hc0 (by linarith : (0 : ℚ) ≤ 1 - 5 * c)]
      · exact le_rfl
  · intro c₁ c₂ hc₁ _ h12
    rw [getEffectiveVoteWeight, getEffectiveVoteWeight]
    split_ifs with h1 h2 h2
    · rw [hq, hq]
      nlinarith [mul_le_mul h12 h12 hc₁ (hc₁.trans h12)]
    · rw [hq]
      rw [LOW_CREDIBILITY_THRESHOLD] at h1
      nlinarith [mul_nonneg hc₁ (by linarith : (0 : ℚ) ≤ 1 - 5 * c₁)]
    · exfalso
      rw [LOW_CREDIBILITY_THRESHOLD] at h1 h2
      linarith
    · exact h12

/-- Witness for C7 at concrete inputs. -/
theorem C7_effectiveWeight_witness :
    getEffectiveVoteWeight (1 / 10) ≤ 1 / 10 ∧
    getEffectiveVoteWeight (1 / 10) ≤ getEffectiveVoteWeight (1 / 2) := by
  constructor
  · exact (C7_effectiveWeight.1 (1 / 10) (by norm_num) (by norm_num)).2.2
  · exact C7_effectiveWeight.2 (1 / 10) (1 / 2) (by norm_num) (by norm_num) (by norm_num)

/-- Claim C2: a vote on an open claim locks the claim (terminal status,
`lockedAt` set) if and only if the post-vote vote count is `≥ 5`, the
post-vote total credibility weight is `≥ 2.0`, and the new truth score is
`≥ 0.75` (then `verified`) or `≤ 0.25` (then `disputed`); otherwise the
claim stays open.  In particular a fresh claim receiving five verify votes
of effective weight `0.6` ends with `weightedVoteSum = 3`,
`totalCredibilityWeight = 3`, `truthScore = 1` and status `verified`. -/
theorem C2_lock_thresholds :
    (∀ (r : Rumor) (v : ℤ) (c : ℚ), r.status = RumorStatus.«open» →
      ((castVoteState r v c).status = RumorStatus.verified ↔
        MIN_VOTES_FOR_LOCK ≤ r.voteCount + 1 ∧
        MIN_CREDIBILITY_WEIGHT ≤ r.totalCredibilityWeight + c ∧
        VERIFIED_THRESHOLD ≤ calculateTruthScore (r.weightedVoteSum + (v : ℚ) * c)
          (r.totalCredibilityWeight + c)) ∧
      ((castVoteState r v c).status = RumorStatus.disputed ↔
        MIN_VOTES_FOR_LOCK ≤ r.voteCount + 1 ∧
        MIN_CREDIBILITY_WEIGHT ≤ r.totalCredibilityWeight + c ∧
        calculateTruthScore (r.weightedVoteSum + (v : ℚ) * c)
          (r.totalCredibilityWeight + c) ≤ DISPUTED_THRESHOLD) ∧
      ((castVoteState r v c).status = RumorStatus.«open» ↔
        ¬ lockCondition (r.voteCount + 1) (r.totalCredibilityWeight + c)
          (calculateTruthScore (r.weightedVoteSum + (v : ℚ) * c)
            (r.totalCredibilityWeight + c))) ∧
      ((castVoteState r v c).locked = true ↔
        lockCondition (r.voteCount + 1) (r.totalCredibilityWeight + c)
          (calculateTruthScore (r.weightedVoteSum + (v : ℚ) * c)
            (r.totalCredibilityWeight + c)))) ∧
    castVotes freshRumor (List.replicate 5 (1, 3 / 5)) =
      { truthScore := 1, status := RumorStatus.verified, voteCount := 5,
        totalCredibilityWeight := 3, weightedVoteSum := 3, locked := true } := by
  constructor
  · intro r v c h
    rw [castVoteState_open r v c h]
    set s := calculateTruthScore (r.weightedVoteSum + (v : ℚ) * c)
      (r.totalCredibilityWeight + c) with hs
    dsimp only
    have hVD : DISPUTED_THRESHOLD < VERIFIED_THRESHOLD := by
      norm_num [DISPUTED_THRESHOLD, VERIFIED_THRESHOLD]
    split_ifs with hP hv
    · obtain ⟨h1, h2, _⟩ := hP
      refine ⟨iff_of_true rfl ⟨h1, h2, hv⟩, iff_of_false (by simp) ?_,
        iff_of_false (by simp) ?_, iff_of_true rfl ⟨h1, h2, Or.inl hv⟩⟩
      · rintro ⟨_, _, h3⟩
        exact absurd (le_trans hv h3) (not_le.2 hVD)
      · exact not_not_intro ⟨h1, h2, Or.inl hv⟩
    · obtain ⟨h1, h2, h3⟩ := hP
      have h3' : s ≤ DISPUTED_THRESHOLD := h3.resolve_left hv
      refine ⟨iff_of_false (by simp) ?_, iff_of_true rfl ⟨h1, h2, h3'⟩,
        iff_of_false (by simp) (not_not_intro ⟨h1, h2, h3⟩),
        iff_of_true rfl ⟨h1, h2, h3⟩⟩
      · rintro ⟨_, _, h4⟩
        exact hv h4
    · refine ⟨iff_of_false (by simp) ?_, iff_of_false (by simp) ?_,
        iff_of_true rfl hP, iff_of_false (by simp) hP⟩
      · rintro ⟨h1, h2, h3⟩
        exact hP ⟨h1, h2, Or.inl h3⟩
      · rintro ⟨h1, h2, h3⟩
        exact hP ⟨h1, h2, Or.inr h3⟩
  · have s1 : castVoteState freshRumor 1 (3 / 5) =
        { truthScore := 1, status := RumorStatus.«open», voteCount := 1,
          totalCredibilityWeight := 3 / 5, weightedVoteSum := 3 / 5, locked := false } := by
      rw [castVoteState_open _ _ _ rfl]
      norm_num [freshRumor, calculateTruthScore, lockCondition, MIN_VOTES_FOR_LOCK,
        MIN_CREDIBILITY_WEIGHT, VERIFIED_THRESHOLD, DISPUTED_THRESHOLD]
    have s2 : castVoteState
        { truthScore := 1, status := RumorStatus.«open», voteCount := 1,
          totalCredibilityWeight := 3 / 5, weightedVoteSum := 3 / 5, locked := false } 1 (3 / 5) =
        { truthScore := 1, status := RumorStatus.«open», voteCount := 2,
          totalCredibilityWeight := 6 / 5, weightedVoteSum := 6 / 5, locked := false } := by
      rw [castVoteState_open _ _ _ rfl]
      norm_num [calculateTruthScore, lockCondition, MIN_VOTES_FOR_LOCK,
        MIN_CREDIBILITY_WEIGHT, VERIFIED_THRESHOLD, DISPUTED_THRESHOLD]
    have s3 : castVoteState
        { truthScore := 1, status := RumorStatus.«open», voteCount := 2,
          totalCredibilityWeight := 6 / 5, weightedVoteSum := 6 / 5, locked := false } 1 (3 / 5) =
        { truthScore := 1, status := RumorStatus.«open», voteCount := 3,
          totalCredibilityWeight := 9 / 5, weightedVoteSum := 9 / 5, locked := false } := by
      rw [castVoteState_open _ _ _ rfl]
      norm_num [calculateTruthScore, lockCondition, MIN_VOTES_FOR_LOCK,
        MIN_CREDIBILITY_WEIGHT, VERIFIED_THRESHOLD, DISPUTED_THRESHOLD]
    have s4 : castVoteState
        { truthScore := 1, status := RumorStatus.«open», voteCount := 3,
          totalCredibilityWeight := 9 / 5, weightedVoteSum := 9 / 5, locked := false } 1 (3 / 5) =
        { truthScore := 1, status := RumorStatus.«open», voteCount := 4,
          totalCredibilityWeight := 12 / 5, weightedVoteSum := 12 / 5, locked := false } := by
      rw [castVoteState_open _ _ _ rfl]
      norm_num [calculateTruthScore, lockCondition, MIN_VOTES_FOR_LOCK,
        MIN_CREDIBILITY_WEIGHT, VERIFIED_THRESHOLD, DISPUTED_THRESHOLD]
    have s5 : castVoteState
        { truthScore := 1, status := RumorStatus.«open», voteCount := 4,
          totalCredibilityWeight := 12 / 5, weightedVoteSum := 12 / 5, locked := false } 1 (3 / 5) =
        { truthScore := 1, status := RumorStatus.verified, voteCount := 5,
          totalCredibilityWeight := 3, weightedVoteSum := 3, locked := true } := by
      rw [castVoteState_open _ _ _ rfl]
      norm_num [calculateTruthScore, lockCondition, MIN_VOTES_FOR_LOCK,
        MIN_CREDIBILITY_WEIGHT, VERIFIED_THRESHOLD, DISPUTED_THRESHOLD]
    show castVoteState (castVoteState (castVoteState (castVoteState
      (castVoteState freshRumor 1 (3 / 5)) 1 (3 / 5)) 1 (3 / 5)) 1 (3 / 5)) 1 (3 / 5) = _
    rw [s1, s2, s3, s4, s5]

/-- Witness for C2: a first vote on a fresh claim leaves it open. -/
theorem C2_lock_thresholds_witness :
    (castVoteState freshRumor 1 (1 / 2)).status = RumorStatus.«open» ↔
      ¬ lockCondition (freshRumor.voteCount + 1) (freshRumor.totalCredibilityWeight + 1 / 2)
        (calculateTruthScore (freshRumor.weightedVoteSum + ((1 : ℤ) : ℚ) * (1 / 2))
          (freshRumor.totalCredibilityWeight + 1 / 2)) :=
  (C2_lock_thresholds.1 freshRumor 1 (1 / 2) rfl).2.2.1

/-- Claim C3: on a claim whose status is not `open`, every `castVote` fails
with the `ClaimLocked` error, and arbitrarily many repeated calls leave the
stored claim state (hence its `truthScore`, `voteCount`, `weightedVoteSum`
and `totalCredibilityWeight`) unchanged. -/
theorem C3_locked_rejects :
    ∀ r : Rumor, r.status ≠ RumorStatus.«open» →
      (∀ (v : ℤ) (c : ℚ), addVoteAndRecalculate r v c = Except.error ClaimLockedMsg) ∧
      (∀ vs : List (ℤ × ℚ), castVotes r vs = r) := by
  intro r h
  have herr : ∀ (v : ℤ) (c : ℚ),
      addVoteAndRecalculate r v c = Except.error ClaimLockedMsg := by
    intro v c
    rw [addVoteAndRecalculate, if_pos h]
  refine ⟨herr, ?_⟩
  intro vs
  induction vs with
  | nil => rfl
  | cons vc vs ih =>
      have hstep : castVoteState r vc.1 vc.2 = r := by
        rw [castVoteState, herr vc.1 vc.2]
      calc castVotes r (vc :: vs)
          = castVotes (castVoteState r vc.1 vc.2) vs := rfl
        _ = castVotes r vs := by rw [hstep]
        _ = r := ih

/-- Witness for C3: a verified (locked) rumor rejects a batch of votes. -/
theorem C3_locked_rejects_witness :
    addVoteAndRecalculate
        { truthScore := 1, status := RumorStatus.verified, voteCount := 5,
          totalCredibilityWeight := 3, weightedVoteSum := 3, locked := true }
        1 (1 / 2) = Except.error ClaimLockedMsg ∧
    castVotes
        { truthScore := 1, status := RumorStatus.verified, voteCount := 5,
          totalCredibilityWeight := 3, weightedVoteSum := 3, locked := true }
        [(1, 1 / 2), (-1, 1)] =
      { truthScore := 1, status := RumorStatus.verified, voteCount := 5,
        totalCredibilityWeight := 3, weightedVoteSum := 3, locked := true } := by
  constructor
  · exact (C3_locked_rejects _ (by decide)).1 1 (1 / 2)
  · exact (C3_locked_rejects _ (by decide)).2 [(1, 1 / 2), (-1, 1)]

/-- Every row of `markProcessed l i` that carries id `i` is processed. -/
lemma mem_markProcessed_processed (l : List PendingUpdate) (i : ℕ) (v : PendingUpdate)
    (hv : v ∈ markProcessed l i) (hid : v.id = i) : v.processed = true := by
  rcases List.mem_map.1 hv with ⟨w, _, hwv⟩
  by_cases h : w.id = i
  · rw [← hwv]
    simp [h]
  · have : v = w := by rw [← hwv]; simp [h]
    exact absurd (this ▸ hid) h

/-- Claim C4: when a claim finalizes, each unprocessed pending update whose
identity exists is applied by setting the voter credibility to
`clip(old + 0.05·alignment, 0, 1)` with `alignment = +1` iff the cast vote
matches the outcome's expected value (`+1` for verified, `-1` for disputed),
incrementing `totalVotes`, incrementing `correctVotes` iff aligned, counting
the update, and marking it processed.  In particular an identity at `0.5`
that voted verify ends at `0.55` when the claim finalizes `verified` and at
`0.45` when it finalizes `disputed`. -/
theorem C4_finalize_applies_update :
    (∀ (o : Outcome) (s : CredState) (n : ℕ) (u : PendingUpdate) (user : AnonymousUser),
      findUser s.users u.userToken = some user →
      (applyCredibilityUpdate o (s, n) u).2 = n + 1 ∧
      findUser ((applyCredibilityUpdate o (s, n) u).1).users u.userToken =
        some
          { credibility :=
              clip (user.credibility +
                ALPHA * (↑(if u.voteValue = (if o = Outcome.verified then 1 else -1)
                  then (1 : ℤ) else (-1 : ℤ)) : ℚ))
                MIN_CREDIBILITY MAX_CREDIBILITY
            totalVotes := user.totalVotes + 1
            correctVotes :=
              if (if u.voteValue = (if o = Outcome.verified then 1 else -1)
                  then (1 : ℤ) else (-1 : ℤ)) = 1 then
                user.correctVotes + 1
              else user.correctVotes } ∧
      ((applyCredibilityUpdate o (s, n) u).1).pending = markProcessed s.pending u.id) ∧
    processCredibilityUpdates "r1" Outcome.verified
        { users := [("alice", { credibility := 1 / 2, totalVotes := 0, correctVotes := 0 })],
          pending := [{ id := 0, userToken := "alice", rumorId := "r1", voteValue := 1, processed := false }] } =
      ({ users := [("alice", { credibility := 11 / 20, totalVotes := 1, correctVotes := 1 })],
         pending := [{ id := 0, userToken := "alice", rumorId := "r1", voteValue := 1, processed := true }] }, 1) ∧
    processCredibilityUpdates "r1" Outcome.disputed
        { users := [("alice", { credibility := 1 / 2, totalVotes := 0, correctVotes := 0 })],
          pending := [{ id := 0, userToken := "alice", rumorId := "r1", voteValue := 1, processed := false }] } =
      ({ users := [("alice", { credibility := 9 / 20, totalVotes := 1, correctVotes := 0 })],
         pending := [{ id := 0, userToken := "alice", rumorId := "r1", voteValue := 1, processed := true }] }, 1) := by
  have hod : (Outcome.disputed = Outcome.verified) = False := by simp
  refine ⟨?_, ?_, ?_⟩
  · intro o s n u user hfind
    refine ⟨?_, ?_, applyCredibilityUpdate_pending o (s, n) u⟩
    · simp [applyCredibilityUpdate, hfind]
    · simp only [applyCredibilityUpdate, hfind]
      rw [findUser_updateUser, hfind]
      rfl
  · simp only [processCredibilityUpdates, List.filter, List.foldl]
    norm_num [applyCredibilityUpdate, findUser, updateUser, markProcessed, clip,
      ALPHA, MIN_CREDIBILITY, MAX_CREDIBILITY, List.find?, min_def, max_def]
  · simp only [processCredibilityUpdates, List.filter, List.foldl]
    norm_num [applyCredibilityUpdate, findUser, updateUser, markProcessed, clip,
      ALPHA, MIN_CREDIBILITY, MAX_CREDIBILITY, List.find?, min_def, max_def, hod]

/-- Witness for C4: the loop body counts the alice update. -/
theorem C4_finalize_applies_update_witness :
    (applyCredibilityUpdate Outcome.verified
        ({ users := [("alice", { credibility := 1 / 2, totalVotes := 0, correctVotes := 0 })],
           pending := [{ id := 0, userToken := "alice", rumorId := "r1", voteValue := 1, processed := false }] }, 0)
        { id := 0, userToken := "alice", rumorId := "r1", voteValue := 1, processed := false }).2 = 0 + 1 :=
  (C4_finalize_applies_update.1 Outcome.verified
    { users := [("alice", { credibility := 1 / 2, totalVotes := 0, correctVotes := 0 })],
      pending := [{ id := 0, userToken := "alice", rumorId := "r1", voteValue := 1, processed := false }] }
    0
    { id := 0, userToken := "alice", rumorId := "r1", voteValue := 1, processed := false }
    { credibility := 1 / 2, totalVotes := 0, correctVotes := 0 }
    rfl).1

/-- Claim C5: `finalize` is idempotent — applying `processCredibilityUpdates`
to its own output changes no identity credibility, `totalVotes` or
`correctVotes` (the state is unchanged) and reports zero updates, because
the `processed` flag is checked per record. -/
theorem C5_finalize_idempotent :
    ∀ (rid : String) (o : Outcome) (s : CredState),
      processCredibilityUpdates rid o ((processCredibilityUpdates rid o s).1) =
        ((processCredibilityUpdates rid o s).1, 0) :=
  processCredibilityUpdates_idem

/-- Claim C10: a pending update whose identity token has no row in the
identity table is still marked processed while the identity table and the
updated count are left unchanged; once marked, no later finalize fetch can
ever pick that update up again (it is excluded from the unprocessed
snapshot of every rumor). -/
theorem C10_missing_identity_dropped :
    ∀ (o : Outcome) (s : CredState) (n : ℕ) (u : PendingUpdate),
      findUser s.users u.userToken = none →
      applyCredibilityUpdate o (s, n) u =
        ({ users := s.users, pending := markProcessed s.pending u.id }, n) ∧
      (∀ (rid : String) (v : PendingUpdate),
        v ∈ ((applyCredibilityUpdate o (s, n) u).1).pending → v.id = u.id →
        v ∉ ((applyCredibilityUpdate o (s, n) u).1).pending.filter
          (fun w => w.rumorId == rid && !w.processed)) := by
  intro o s n u hfind
  constructor
  · simp [applyCredibilityUpdate, hfind]
  · intro rid v hv hid hmem
    rw [applyCredibilityUpdate_pending] at hv
    have hproc : v.processed = true := mem_markProcessed_processed _ _ _ hv hid
    have := (List.mem_filter.1 hmem).2
    simp [hproc] at this

/-- Witness for C10: an update of an unknown identity is marked processed
with no other effect. -/
theorem C10_missing_identity_dropped_witness :
    applyCredibilityUpdate Outcome.verified
        ({ users := [], pending := [{ id := 0, userToken := "ghost", rumorId := "r1", voteValue := 1, processed := false }] }, 0)
        { id := 0, userToken := "ghost", rumorId := "r1", voteValue := 1, processed := false } =
      ({ users := [], pending := [{ id := 0, userToken := "ghost", rumorId := "r1", voteValue := 1, processed := true }] }, 0) := by
  have h := (C10_missing_identity_dropped Outcome.verified
    { users := [], pending := [{ id := 0, userToken := "ghost", rumorId := "r1", voteValue := 1, processed := false }] }
    0
    { id := 0, userToken := "ghost", rumorId := "r1", voteValue := 1, processed := false }
    rfl).1
  rw [h]
  rfl

/-- Claim C6: starting from the freshly created claim state, for every
sequence of votes with values in `{+1, -1}` and effective credibilities in
`[0, 1]`, the truth score lies within `[0, 1]` after every vote (at every
state of the trace). -/
theorem C6_score_in_unit_interval :
    ∀ vs : List (ℤ × ℚ),
      (∀ vc ∈ vs, (vc.1 = 1 ∨ vc.1 = -1) ∧ 0 ≤ vc.2 ∧ vc.2 ≤ 1) →
      ∀ s ∈ voteTrace freshRumor vs, 0 ≤ s.truthScore ∧ s.truthScore ≤ 1 := by
  intro vs hvs s hs
  have hfresh : GoodRumor freshRumor := by
    refine ⟨?_, by norm_num [freshRumor], by norm_num [freshRumor]⟩
    simp [freshRumor]
  exact (goodRumor_voteTrace vs freshRumor hfresh hvs s hs).2

/-- Witness for C6 on a concrete vote sequence. -/
theorem C6_score_in_unit_interval_witness :
    (∀ vc ∈ [((1 : ℤ), (1 : ℚ) / 2), ((-1 : ℤ), (1 : ℚ))],
      (vc.1 = 1 ∨ vc.1 = -1) ∧ 0 ≤ vc.2 ∧ vc.2 ≤ 1) ∧
    (∀ s ∈ voteTrace freshRumor [((1 : ℤ), (1 : ℚ) / 2), ((-1 : ℤ), (1 : ℚ))],
      0 ≤ s.truthScore ∧ s.truthScore ≤ 1) := by
  have hv : ∀ vc ∈ [((1 : ℤ), (1 : ℚ) / 2), ((-1 : ℤ), (1 : ℚ))],
      (vc.1 = 1 ∨ vc.1 = -1) ∧ 0 ≤ vc.2 ∧ vc.2 ≤ 1 := by
    intro vc hvc
    simp only [List.mem_cons, List.mem_singleton] at hvc
    rcases hvc with h | h | h
    · subst h; norm_num
    · subst h; norm_num
    · cases h
  exact ⟨hv, C6_score_in_unit_interval _ hv⟩

lemma Reachable.trans {edges : List (String × String)} {a b c : String}
    (hab : Reachable edges a b) (hbc : Reachable edges b c) : Reachable edges a c := by
  induction hab with
  | refl _ => exact hbc
  | step hedge _ ih => exact Reachable.step hedge (ih hbc)

lemma mem_successorsOf_of_edge {edges : List (String × String)} {a b : String}
    (h : (a, b) ∈ edges) : b ∈ successorsOf edges a := by
  rw [successorsOf]
  refine List.mem_map.2 ⟨(a, b), ?_, rfl⟩
  rw [List.mem_filter]
  exact ⟨h, by simp⟩

lemma reach_visited_false (edges : List (String × String)) (sourceId : String)
    (visited : List String)
    (hinv : ∀ v ∈ visited, v ≠ sourceId ∧ ∀ w ∈ successorsOf edges v, w ∈ visited) :
    ∀ u v, Reachable edges u v → v = sourceId → u ∈ visited → False := by
  intro u v hreach
  induction hreach with
  | refl a =>
      intro heq hmem
      exact (hinv a hmem).1 heq
  | @step a b c hedge htail ih =>
      intro heq hmem
      exact ih heq ((hinv a hmem).2 b (mem_successorsOf_of_edge hedge))

lemma dfs_false_not_reachable (edges : List (String × String)) (sourceId : String) :
    ∀ (visited stack : List String),
      dfs edges sourceId visited stack = false →
      (∀ v ∈ visited, v ≠ sourceId ∧
        ∀ w ∈ successorsOf edges v, w ∈ visited ∨ w ∈ stack) →
      ∀ u, u ∈ stack ∨ u ∈ visited → ¬ Reachable edges u sourceId := by
  intro visited stack
  induction visited, stack using dfs.induct edges sourceId with
  | case1 visited =>
      intro _ hinv u hu hreach
      have huv : u ∈ visited := by
        rcases hu with h | h
        · cases h
        · exact h
      have hinv2 : ∀ v ∈ visited, v ≠ sourceId ∧
          ∀ w ∈ successorsOf edges v, w ∈ visited := by
        intro v hv
        refine ⟨(hinv v hv).1, fun w hw => ?_⟩
        rcases (hinv v hv).2 w hw with h | h
        · exact h
        · cases h
      exact reach_visited_false edges sourceId visited hinv2 u sourceId hreach rfl huv
  | case2 visited stack =>
      intro hfalse
      rw [dfs] at hfalse
      simp at hfalse
  | case3 visited current stack hcur hvis ih =>
      intro hfalse hinv u hu
      rw [dfs, if_neg hcur, if_pos hvis] at hfalse
      have hinv2 : ∀ v ∈ visited, v ≠ sourceId ∧
          ∀ w ∈ successorsOf edges v, w ∈ visited ∨ w ∈ stack := by
        intro v hv
        refine ⟨(hinv v hv).1, ?_⟩
        intro w hw
        rcases (hinv v hv).2 w hw with h | h
        · exact Or.inl h
        · rcases List.mem_cons.1 h with h2 | h2
          · exact Or.inl (h2 ▸ hvis)
          · exact Or.inr h2
      rcases hu with h | h
      · rcases List.mem_cons.1 h with h2 | h2
        · exact ih hfalse hinv2 u (Or.inr (h2 ▸ hvis))
        · exact ih hfalse hinv2 u (Or.inl h2)
      · exact ih hfalse hinv2 u (Or.inr h)
  | case4 visited current stack hcur hvis ih =>
      intro hfalse hinv u hu
      rw [dfs, if_neg hcur, if_neg hvis] at hfalse
      have hinv2 : ∀ v ∈ current :: visited, v ≠ sourceId ∧
          ∀ w ∈ successorsOf edges v,
            w ∈ current :: visited ∨
            w ∈ (successorsOf edges current).filter (fun t => t ∉ current :: visited)
              ++ stack := by
        intro v hv
        rcases List.mem_cons.1 hv with hv2 | hv2
        · subst hv2
          refine ⟨hcur, ?_⟩
          intro w hw
          by_cases hwv : w ∈ v :: visited
          · exact Or.inl hwv
          · refine Or.inr (List.mem_append_left _ ?_)
            rw [List.mem_filter]
            exact ⟨hw, by simpa using hwv⟩
        · refine ⟨(hinv v hv2).1, ?_⟩
          intro w hw
          rcases (hinv v hv2).2 w hw with h | h
          · exact Or.inl (List.mem_cons_of_mem _ h)
          · rcases List.mem_cons.1 h with h2 | h2
            · exact Or.inl (h2 ▸ List.mem_cons_self _ _)
            · exact Or.inr (List.mem_append_right _ h2)
      rcases hu with h | h
      · rcases List.mem_cons.1 h with h2 | h2
        · exact ih hfalse hinv2 u (Or.inr (h2 ▸ List.mem_cons_self _ _))
        · exact ih hfalse hinv2 u (Or.inl (List.mem_append_right _ h2))
      · exact ih hfalse hinv2 u (Or.inr (List.mem_cons_of_mem _ h))

lemma checkForCycle_complete (edges : List (String × String)) (src tgt : String)
    (h : Reachable edges tgt src) : checkForCycle edges src tgt = true := by
  by_contra hfc
  have hfalse : dfs edges src [] [tgt] = false := by
    rw [checkForCycle] at hfc
    exact Bool.not_eq_true _ ▸ (Bool.eq_false_iff.2 hfc)
  exact dfs_false_not_reachable edges src [] [tgt] hfalse
    (fun v hv => absurd hv (List.not_mem_nil v))
    tgt (Or.inl (List.mem_cons_self _ _)) h

lemma addReferenceEdge_skip (edges : List (String × String)) (src tgt : String)
    (h : Reachable edges tgt src) : addReferenceEdge edges src tgt = edges := by
  rw [addReferenceEdge, if_pos (checkForCycle_complete edges src tgt h)]

lemma reachable_append_single {edges : List (String × String)} {src tgt : String}
    (hnr : ¬ Reachable edges tgt src) :
    ∀ {x y : String}, Reachable (edges ++ [(src, tgt)]) x y →
      Reachable edges x y ∨ (Reachable edges x src ∧ Reachable edges tgt y) := by
  intro x y h
  induction h with
  | refl a => exact Or.inl (Reachable.refl a)
  | @step a b c hedge htail ih =>
      rcases List.mem_append.1 hedge with he | he
      · rcases ih with h1 | ⟨h1, h2⟩
        · exact Or.inl (Reachable.step he h1)
        · exact Or.inr ⟨Reachable.step he h1, h2⟩
      · obtain ⟨ha, hb⟩ : a = src ∧ b = tgt := by simpa using he
        subst ha
        subst hb
        rcases ih with h1 | ⟨h1, h2⟩
        · exact Or.inr ⟨Reachable.refl _, h1⟩
        · exact absurd h1 hnr

lemma acyclic_insert {edges : List (String × String)} {src tgt : String}
    (hnr : ¬ Reachable edges tgt src) (hac : Acyclic edges) :
    Acyclic (edges ++ [(src, tgt)]) := by
  intro a b hab hreach
  have hsplit := reachable_append_single hnr hreach
  rcases List.mem_append.1 hab with he | he
  · rcases hsplit with h1 | ⟨h1, h2⟩
    · exact hac a b he h1
    · exact hnr (h2.trans (Reachable.step he h1))
  · obtain ⟨ha, hb⟩ : a = src ∧ b = tgt := by simpa using he
    subst ha
    subst hb
    rcases hsplit with h1 | ⟨h1, h2⟩
    · exact hnr h1
    · exact hnr h1

lemma acyclic_addReferenceEdge (edges : List (String × String)) (src tgt : String)
    (hac : Acyclic edges) : Acyclic (addReferenceEdge edges src tgt) := by
  rw [addReferenceEdge]
  split_ifs with h1 h2
  · exact hac
  · exact hac
  · have hnr : ¬ Reachable edges tgt src := fun hr =>
      h1 (checkForCycle_complete edges src tgt hr)
    exact acyclic_insert hnr hac

lemma acyclic_foldl_addReferenceEdge (src : String) (ts : List String) :
    ∀ es : List (String × String), Acyclic es →
      Acyclic (ts.foldl (fun es t => addReferenceEdge es src t) es) := by
  induction ts with
  | nil => intro es h; exact h
  | cons t ts ih =>
      intro es h
      rw [List.foldl_cons]
      exact ih _ (acyclic_addReferenceEdge es src t h)

/-- Claim C8: edge insertion preserves acyclicity of the reference graph:
a reachability search from the target over the existing edges guards each
insertion, and the edge is skipped (without an error) whenever the source
is reachable from the target; in particular inserting `B→A` is rejected
both when edge `A→B` exists and when a path `A→X→B` exists. -/
theorem C8_dag_cycle_prevention :
    (∀ (edges : List (String × String)) (src tgt : String),
      Reachable edges tgt src → addReferenceEdge edges src tgt = edges) ∧
    (∀ (edges : List (String × String)) (src tgt : String),
      Acyclic edges → Acyclic (addReferenceEdge edges src tgt)) ∧
    (∀ (rumors : List (String × Rumor)) (edges : List (String × String))
       (srcId : String) (targetIds : List String),
      Acyclic edges → Acyclic (createReferences rumors edges srcId targetIds)) ∧
    addReferenceEdge [("A", "B")] "B" "A" = [("A", "B")] ∧
    addReferenceEdge [("A", "X"), ("X", "B")] "B" "A" = [("A", "X"), ("X", "B")] := by
  refine ⟨addReferenceEdge_skip, acyclic_addReferenceEdge, ?_, ?_, ?_⟩
  · intro rumors edges srcId targetIds hac
    exact acyclic_foldl_addReferenceEdge srcId _ edges hac
  · exact addReferenceEdge_skip _ _ _
      (Reachable.step (show ("A", "B") ∈ [("A", "B")] by simp) (Reachable.refl "B"))
  · exact addReferenceEdge_skip _ _ _
      (Reachable.step (show ("A", "X") ∈ [("A", "X"), ("X", "B")] by simp)
        (Reachable.step (show ("X", "B") ∈ [("A", "X"), ("X", "B")] by simp)
          (Reachable.refl "B")))

/-- Witness for C8: a direct back-edge is skipped. -/
theorem C8_dag_cycle_prevention_witness :
    addReferenceEdge [("P", "Q")] "Q" "P" = [("P", "Q")] :=
  C8_dag_cycle_prevention.1 [("P", "Q")] "Q" "P"
    (Reachable.step (show ("P", "Q") ∈ [("P", "Q")] by simp) (Reachable.refl "Q"))

/-- Deleting a rumor leaves the stored record of every other rumor id
untouched. -/
lemma find?_deleteRumor_ne (rumors : List (String × Rumor)) (rid y : String)
    (hne : y ≠ rid) :
    (deleteRumor rumors rid).find? (fun p => p.1 == y) =
      rumors.find? (fun p => p.1 == y) := by
  induction rumors with
  | nil => rfl
  | cons p rest ih =>
      by_cases hrid : p.1 == rid
      · have hp : p.1 = rid := by simpa using hrid
        have hy : (p.1 == y) = false := by
          simp [hp]
          exact fun h => hne h.symm
        simp only [deleteRumor, List.map_cons, if_pos hrid]
        rw [List.find?, List.find?]
        simp only [hy]
        exact ih
      · simp only [deleteRumor, List.map_cons, if_neg hrid]
        rw [List.find?, List.find?]
        cases hy : (p.1 == y)
        · exact ih
        · rfl

/-- Claim C9: deleting a claim `X` removes exactly the reference edges with
`X` as source or target, reporting the incoming and outgoing counts, and
changes nothing else: every edge not touching `X` survives (in order), and
the stored record — `truthScore`, `voteCount`, `status` — of every other
claim is unchanged, with no recomputation of neighboring scores. -/
theorem C9_delete_frame :
    ∀ (s : AppState) (rid : String),
      (s.rumors.find? (fun p => p.1 == rid)).isSome = true →
      deleteRumorRoute s rid =
        Except.ok
          ({ rumors := deleteRumor s.rumors rid,
             edges := s.edges.filter (fun e => !(e.1 == rid) && !(e.2 == rid)) },
           (s.edges.filter (fun e => e.2 == rid)).length,
           (s.edges.filter (fun e => e.1 == rid)).length) ∧
      (∀ e : String × String,
        e ∈ (removeRumorFromDAG s.edges rid).1 ↔
          e ∈ s.edges ∧ e.1 ≠ rid ∧ e.2 ≠ rid) ∧
      (∀ y : String, y ≠ rid →
        (deleteRumor s.rumors rid).find? (fun p => p.1 == y) =
          s.rumors.find? (fun p => p.1 == y)) := by
  intro s rid hsome
  have hedges : (removeRumorFromDAG s.edges rid).1 =
      s.edges.filter (fun e => !(e.1 == rid) && !(e.2 == rid)) := by
    simp only [removeRumorFromDAG, List.filter_filter]
  refine ⟨?_, ?_, fun y hy => find?_deleteRumor_ne s.rumors rid y hy⟩
  · rcases hfind : s.rumors.find? (fun p => p.1 == rid) with _ | p
    · rw [hfind] at hsome
      simp at hsome
    · rw [deleteRumorRoute, hfind]
      simp only [removeRumorFromDAG] at hedges ⊢
      rw [hedges]
  · intro e
    rw [hedges, List.mem_filter]
    simp

/-- Witness for C9 on a concrete two-edge store. -/
theorem C9_delete_frame_witness :
    deleteRumorRoute
        { rumors := [("r1", freshRumor)], edges := [("r1", "r2"), ("r2", "r3")] } "r1" =
      Except.ok
        ({ rumors := deleteRumor [("r1", freshRumor)] "r1",
           edges := [("r1", "r2"), ("r2", "r3")].filter
             (fun e => !(e.1 == "r1") && !(e.2 == "r1")) },
         ([("r1", "r2"), ("r2", "r3")].filter (fun e => e.2 == "r1")).length,
         ([("r1", "r2"), ("r2", "r3")].filter (fun e => e.1 == "r1")).length) :=
  (C9_delete_frame { rumors := [("r1", freshRumor)], edges := [("r1", "r2"), ("r2", "r3")] }
    "r1" rfl).1

end NustRumours
